import Mathlib

/-!
A shallow embedding of `docstring_to_markdown/rst.py` (the RST-to-Markdown
converter).  Text is modelled as `List Char`; a *line* is a list of characters
containing no `'\n'` (the driver splits its input on `'\n'`).  Each regular
expression of the source is modelled by an executable matching function that
follows Python `re` semantics (leftmost scan, greedy/lazy quantifiers with
backtracking, `$` matching at the end of the text or just before a final
newline, `re.sub` replacing all non-overlapping matches left to right).
Fallible operations (`raise ValueError`, `IndexError` on an empty buffer,
`assert`) are modelled with `Option`.  All definitions are structurally
recursive (bounded by an explicit fuel argument equal to the text length where
needed) so that concrete runs reduce inside the kernel.
-/

namespace RstToMd

abbrev Line := List Char

/-- Python whitespace, as used by `str.strip` / `str.lstrip` / `str.rstrip`
and the regex class `\s` (ASCII range). -/
def isPySpace (c : Char) : Bool :=
  c = ' ' || c = '\t' || c = '\n' || c = '\r' || c = '\x0b' || c = '\x0c'

/-- The regex class `\w` (ASCII range, as relevant to the converter's inputs). -/
def isWordChar (c : Char) : Bool := c.isAlpha || c.isDigit || c = '_'

/-- `str.lstrip()`. -/
def lstrip (l : Line) : Line := l.dropWhile isPySpace

/-- `str.rstrip()`. -/
def rstrip (l : Line) : Line := (l.reverse.dropWhile isPySpace).reverse

/-- `str.strip()`. -/
def strip (l : Line) : Line := rstrip (lstrip l)

/-- If `pat` is a literal prefix of `s`, return the remainder of `s`. -/
def litPre : List Char → List Char → Option (List Char)
  | [], s => some s
  | _ :: _, [] => none
  | p :: ps, c :: cs => if p = c then litPre ps cs else none

/-- `pat in s` (Python substring containment). -/
def containsSub (pat : List Char) : List Char → Bool
  | [] => pat.isEmpty
  | s@(_ :: rest) => (litPre pat s).isSome || containsSub pat rest

/-- `s.startswith(pat)`. -/
def startsWithL (pat s : List Char) : Bool := (litPre pat s).isSome

/-- `s.endswith(pat)`. -/
def endsWithL (pat s : List Char) : Bool := (litPre pat.reverse s.reverse).isSome

/-- Fuel-driven worker for `pyReplace`; the fuel is an upper bound on the
number of scanning steps (one per character position). -/
def pyReplaceAux (old new : List Char) : Nat → List Char → List Char
  | _, [] => []
  | 0, s => s
  | fuel + 1, c :: rest =>
    match litPre old (c :: rest) with
    | some after =>
      if old.isEmpty then c :: pyReplaceAux old new fuel rest
      else new ++ pyReplaceAux old new fuel after
    | none => c :: pyReplaceAux old new fuel rest

/-- Python `s.replace(old, new)`: replace all non-overlapping occurrences,
scanning left to right (for non-empty `old`). -/
def pyReplace (old new s : List Char) : List Char := pyReplaceAux old new s.length s

/-- A matcher implements one regex pattern together with its replacement:
applied at the front of the text it either fails or returns the replacement
text and the number of characters the match consumed. -/
abbrev Matcher := List Char → Option (List Char × Nat)

/-- Fuel-driven worker for `scanSub`. -/
def scanSubAux (m : Matcher) : Nat → List Char → List Char
  | _, [] => (match m [] with | some (r, _) => r | none => [])
  | 0, s => s
  | fuel + 1, c :: rest =>
    match m (c :: rest) with
    | some (r, k) =>
      if k = 0 then r ++ c :: scanSubAux m fuel rest
      else r ++ scanSubAux m fuel ((c :: rest).drop k)
    | none => c :: scanSubAux m fuel rest

/-- `re.sub(pattern, replacement, s)`: replace every match of the matcher,
scanning positions left to right and resuming after each match. -/
def scanSub (m : Matcher) (s : List Char) : List Char := scanSubAux m s.length s

/-- `re.search(pattern, s) is not None`: does the matcher fire at any position? -/
def scanSearch (m : Matcher) : List Char → Bool
  | [] => (m []).isSome
  | s@(_ :: rest) => (m s).isSome || scanSearch m rest

/-- The `(?P<end>$|\n)` tail used by several directive patterns.  `$` (which
matches at the end of the text, or just before a final newline) is tried
first, then a literal newline.  Returns the group text and the number of
characters consumed. -/
def endGroup : List Char → Option (List Char × Nat)
  | [] => some ([], 0)
  | ['\n'] => some ([], 0)
  | '\n' :: _ => some (['\n'], 1)
  | _ => none

/-- Common shape of the three version directives
`\.\. version...:: (?P<version>\S+)(?P<end>$|\n)` with replacement
`*<prefix> \g<version>*\g<end>`. -/
def mVersionLike (lit replPre : List Char) : Matcher := fun s =>
  match litPre lit s with
  | none => none
  | some rest =>
    let v := rest.takeWhile (fun c => !isPySpace c)
    if v.isEmpty then none
    else
      match endGroup (rest.drop v.length) with
      | none => none
      | some (e, k) => some (replPre ++ v ++ '*' :: e, lit.length + v.length + k)

def mVersionChanged : Matcher := mVersionLike ".. versionchanged:: ".data "*Changed in ".data

def mVersionAdded : Matcher := mVersionLike ".. versionadded:: ".data "*Added in ".data

def mDeprecated : Matcher := mVersionLike ".. deprecated:: ".data "*Deprecated since ".data

/-- `\.\. warning::` replaced by `**Warning**:`. -/
def mWarningDirective : Matcher := fun s =>
  (litPre ".. warning::".data s).map (fun _ => ("**Warning**:".data, 12))

/-- `\.\. seealso::(?P<short_form>.*)(?P<end>$|\n)` replaced by
`*See also*\g<short_form>\g<end>`. -/
def mSeeAlso : Matcher := fun s =>
  match litPre ".. seealso::".data s with
  | none => none
  | some rest =>
    let sf := rest.takeWhile (fun c => c ≠ '\n')
    match endGroup (rest.drop sf.length) with
    | none => none
    | some (e, k) => some ("*See also*".data ++ sf ++ e, 12 + sf.length + k)

/-- Lazy label `[^<`]+?` followed by the bridge `\s*<`: the label grows one
character at a time and the bridge is tried before each extension (shortest
match first).  Returns the label, the text after `<`, and the characters
consumed (label, skipped spaces and the `<`). -/
def lazyToAngle : Nat → Line → List Char → Option (Line × List Char × Nat)
  | _, _, [] => none
  | 0, _, _ => none
  | fuel + 1, accRev, c :: rest =>
    if c = '<' || c = '`' then none
    else
      let accRev' := c :: accRev
      let sp := rest.takeWhile isPySpace
      match rest.drop sp.length with
      | '<' :: after => some (accRev'.reverse, after, accRev'.length + sp.length + 1)
      | _ => lazyToAngle fuel accRev' rest

/-- `:ref:`(?P<label>[^<`]+?)\s*<(?P<ref>[^>`]+?)>`` replaced by
`\g<label>: `\g<ref>``. -/
def mRef : Matcher := fun s =>
  match litPre ":ref:`".data s with
  | none => none
  | some rest =>
    match lazyToAngle rest.length [] rest with
    | none => none
    | some (label, after, k1) =>
      let r := after.takeWhile (fun c => c ≠ '>' && c ≠ '`')
      if r.isEmpty then none
      else
        match after.drop r.length with
        | '>' :: '`' :: _ => some (label ++ ": `".data ++ r ++ ['`'], 6 + k1 + r.length + 2)
        | _ => none

/-- Lazy label `[^<`]+?` followed by the bridge `(\n?)<` (the greedy `\n?`
tries to take a newline first). -/
def lazyToAngleNl : Nat → Line → List Char → Option (Line × List Char × Nat)
  | _, _, [] => none
  | 0, _, _ => none
  | fuel + 1, accRev, c :: rest =>
    if c = '<' || c = '`' then none
    else
      let accRev' := c :: accRev
      match rest with
      | '\n' :: '<' :: after => some (accRev'.reverse, after, accRev'.length + 2)
      | '<' :: after => some (accRev'.reverse, after, accRev'.length + 1)
      | _ => lazyToAngleNl fuel accRev' rest

/-- The hyperlink rule `` `(?P<label>[^<`]+?)(\n?)<(?P<url>[^>`]+)>`_+ ``
replaced by `[\g<label>](\g<url>)` (the optional newline is dropped). -/
def mLink : Matcher := fun s =>
  match s with
  | '`' :: rest =>
    match lazyToAngleNl rest.length [] rest with
    | none => none
    | some (label, after, k1) =>
      let u := after.takeWhile (fun c => c ≠ '>' && c ≠ '`')
      if u.isEmpty then none
      else
        match after.drop u.length with
        | '>' :: '`' :: tail =>
          let us := tail.takeWhile (fun c => c = '_')
          if us.isEmpty then none
          else some ('[' :: label ++ "](".data ++ u ++ [')'], 1 + k1 + u.length + 2 + us.length)
        | _ => none
  | _ => none

/-- `:mod:`(?P<label>[^`]+)`` replaced by `` `\g<label>` ``. -/
def mMod : Matcher := fun s =>
  match litPre ":mod:`".data s with
  | none => none
  | some rest =>
    let l := rest.takeWhile (fun c => c ≠ '`')
    if l.isEmpty then none
    else
      match rest.drop l.length with
      | '`' :: _ => some ('`' :: l ++ ['`'], 6 + l.length + 1)
      | _ => none

/-- `\.\. currentmodule:: (?P<module>.+)(?P<end>$|\n)` deleted entirely. -/
def mCurrentModule : Matcher := fun s =>
  match litPre ".. currentmodule:: ".data s with
  | none => none
  | some rest =>
    let md := rest.takeWhile (fun c => c ≠ '\n')
    if md.isEmpty then none
    else
      match endGroup (rest.drop md.length) with
      | none => none
      | some (_, k) => some ([], 19 + md.length + k)

/-- `:math:`(?P<latex>[^`]+?)`` replaced by `$\g<latex>$`. -/
def mMathDirective : Matcher := fun s =>
  match litPre ":math:`".data s with
  | none => none
  | some rest =>
    let l := rest.takeWhile (fun c => c ≠ '`')
    if l.isEmpty then none
    else
      match rest.drop l.length with
      | '`' :: _ => some ('$' :: l ++ ['$'], 7 + l.length + 1)
      | _ => none

/-- `\.\. highlight:: (?P<language>.+)(?P<end>$|\n)` deleted entirely. -/
def mHighlight : Matcher := fun s =>
  match litPre ".. highlight:: ".data s with
  | none => none
  | some rest =>
    let lang := rest.takeWhile (fun c => c ≠ '\n')
    if lang.isEmpty then none
    else
      match endGroup (rest.drop lang.length) with
      | none => none
      | some (_, k) => some ([], 15 + lang.length + k)

/-- Shared tail of the code-block directive: `::(?P<language>.*)(?P<end>$|\n)`
with replacement `\g<end>`. -/
def mCodeBlockTail (litLen : Nat) (rest : List Char) : Option (List Char × Nat) :=
  let lang := rest.takeWhile (fun c => c ≠ '\n')
  match endGroup (rest.drop lang.length) with
  | none => none
  | some (e, k) => some (e, litLen + lang.length + k)

/-- `\.\. (code-block|productionlist)::(?P<language>.*)(?P<end>$|\n)`
replaced by `\g<end>`. -/
def mCodeBlockDirective : Matcher := fun s =>
  match litPre ".. code-block::".data s with
  | some rest => mCodeBlockTail 15 rest
  | none =>
    match litPre ".. productionlist::".data s with
    | some rest => mCodeBlockTail 19 rest
    | none => none

/-- The escaping rule `__(?P<text>\S+)__` replaced by `\_\_\g<text>\_\_`
(the greedy `\S+` backtracks to the last `__` pair inside the non-space run). -/
def mDunder : Matcher := fun s =>
  match litPre "__".data s with
  | none => none
  | some rest =>
    let r := rest.takeWhile (fun c => !isPySpace c)
    match (List.range r.length).reverse.find? (fun j =>
        (j != 0) && (r.get? j == some '_') && (r.get? (j + 1) == some '_')) with
    | none => none
    | some j => some ("\\_\\_".data ++ r.take j ++ "\\_\\_".data, 2 + j + 2)

/-- `RST_DIRECTIVES`, in source order. -/
def RST_DIRECTIVES : List Matcher :=
  [mVersionChanged, mVersionAdded, mDeprecated, mWarningDirective, mSeeAlso,
   mRef, mLink, mMod, mCurrentModule, mMathDirective, mHighlight, mCodeBlockDirective]

/-- `DIRECTIVES = [*RST_DIRECTIVES, *ESCAPING_RULES]`. -/
def DIRECTIVES : List Matcher := RST_DIRECTIVES ++ [mDunder]

/-- `_RST_SECTIONS` (written in the order the source lists them; Python
iterates this set in an unspecified order, but the section replacements are
pairwise independent so the order is immaterial). -/
def RST_SECTION_NAMES : List (List Char) :=
  ["Parameters".data, "Returns".data, "See Also".data, "Examples".data,
   "Attributes".data, "Notes".data, "References".data]

/-- `'-' * len(section)`. -/
def sectionUnderline (sec : List Char) : List Char := List.replicate sec.length '-'

/-- The `(\s|\w)::\n` search of `looks_like_rst`. -/
def hasTextColonColon : List Char → Bool
  | c1 :: c2 :: c3 :: c4 :: rest =>
    ((isPySpace c1 || isWordChar c1) && c2 = ':' && c3 = ':' && c4 = '\n')
      || hasTextColonColon (c2 :: c3 :: c4 :: rest)
  | _ => false

/-- The four indicator predicates of `looks_like_rst`, named individually. -/
def hasSectionUnderline (t : List Char) : Bool :=
  RST_SECTION_NAMES.any (fun sec => containsSub (sec ++ '\n' :: sectionUnderline sec ++ ['\n']) t)

def matchesAnyDirective (t : List Char) : Bool :=
  RST_DIRECTIVES.any (fun m => scanSearch m t)

def hasPromptExample (t : List Char) : Bool := containsSub "\n>>> ".data t

/-- `looks_like_rst`, on character lists (the two early-return loops of the
source, then the final boolean). -/
def looksLikeRstL (t : List Char) : Bool :=
  if hasSectionUnderline t then true
  else if matchesAnyDirective t then true
  else hasTextColonColon t || hasPromptExample t

/-- `looks_like_rst(value)`. -/
def looks_like_rst (value : String) : Bool := looksLikeRstL value.data

/-! ## The block-parser family -/

/-- The six concrete parser instances (five in `BLOCK_PARSERS` plus the
output parser reachable only as the prompt parser's follower). -/
inductive ParserKind
  | prompt
  | output
  | note
  | math
  | explicitCode
  | doubleColon
deriving DecidableEq, Repr

/-- Mutable state of one `BlockParser` instance (`_buffer`, `_block_started`,
and for `IndentedBlockParser` also `_is_block_beginning` and
`_block_indent_size`; the latter is unset until `_start_block` runs). -/
structure BlockState where
  buffer : List Line
  blockStarted : Bool
  isBlockBeginning : Bool
  blockIndentSize : Option Nat
deriving DecidableEq, Repr

def initBlockState : BlockState := ⟨[], false, false, none⟩

/-- `enclosure` class attribute. -/
def enclosure : ParserKind → List Char
  | .math => "$$".data
  | .note => "\n---".data
  | _ => "```".data

/-- `BlockParser._start_block`. -/
def startBlock (k : ParserKind) (language : List Char) (st : BlockState) : BlockState :=
  { st with buffer := st.buffer ++ [enclosure k ++ language], blockStarted := true }

/-- `IndentedBlockParser._start_block`. -/
def startBlockIndented (k : ParserKind) (language : List Char) (st : BlockState) : BlockState :=
  { startBlock k language st with blockIndentSize := none, isBlockBeginning := true }

/-- `BlockParser.consume`: raises `ValueError` when the block has not
started (modelled by `none`). -/
def consumeBase (line : Line) (st : BlockState) : Option BlockState :=
  if st.blockStarted then some { st with buffer := st.buffer ++ [line] } else none

/-- The shared tail of `IndentedBlockParser.consume` after the
block-beginning bookkeeping: capture the indent from this line if not yet
set, then consume the line with that many characters sliced off. -/
def consumeIndentedCore (line : Line) (st : BlockState) : Option BlockState :=
  let w :=
    match st.blockIndentSize with
    | none => line.length - (lstrip line).length
    | some w => w
  consumeBase (line.drop w) { st with blockIndentSize := some w }

/-- `IndentedBlockParser.consume`. -/
def consumeIndented (line : Line) (st : BlockState) : Option BlockState :=
  if st.isBlockBeginning then
    let st := { st with isBlockBeginning := false }
    if (strip line).isEmpty then some st else consumeIndentedCore line st
  else consumeIndentedCore line st

/-- `PythonPromptCodeBlockParser._strip_prompt`. -/
def stripPrompt (line : Line) : Line :=
  if startsWithL ">>> ".data line || startsWithL "... ".data line then line.drop 4
  else line.drop 3

/-- `consume`, per parser. -/
def consumeP : ParserKind → Line → BlockState → Option BlockState
  | .prompt, line, st => consumeBase (stripPrompt line) st
  | .output, line, st => consumeBase line st
  | .note, line, st => consumeIndented line st
  | .math, line, st => consumeIndented line st
  | .explicitCode, line, st => consumeIndented line st
  | .doubleColon, line, st => consumeIndented line st

/-- `'\n'.join(...)`. -/
def joinLines : List Line → List Char
  | [] => []
  | [l] => l
  | l :: ls => l ++ '\n' :: joinLines ls

/-- `BlockParser.finish_consumption` (indexing the last buffer entry fails on
an empty buffer, modelled by `none`). -/
def finishBase (k : ParserKind) (final : Bool) (st : BlockState) :
    Option (List Char × BlockState) :=
  match st.buffer.getLast? with
  | none => none
  | some last =>
    let buf := if (strip last).isEmpty then st.buffer.dropLast else st.buffer
    let buf := buf ++ [enclosure k ++ ['\n']]
    let result := joinLines buf
    let result := if final then result else result ++ ['\n']
    some (result, { st with buffer := [], blockStarted := false })

/-- `finish_consumption`, per parser (the indented variants first clear the
block-beginning flag and the indent). -/
def finish_consumption (k : ParserKind) (final : Bool) (st : BlockState) :
    Option (List Char × BlockState) :=
  match k with
  | .prompt => finishBase k final st
  | .output => finishBase k final st
  | _ => finishBase k final { st with isBlockBeginning := false, blockIndentSize := none }

/-- `IndentedBlockParser.can_consume`. -/
def canConsumeIndented (st : BlockState) (line : Line) : Bool :=
  if st.isBlockBeginning && (strip line).isEmpty then true
  else
    match line with
    | [] => true
    | c :: _ => isPySpace c

/-- `can_consume`, per parser. -/
def can_consume : ParserKind → BlockState → Line → Bool
  | .prompt, _, line => startsWithL ">>>".data line || startsWithL "...".data line
  | .output, _, line => !(strip line).isEmpty && !startsWithL ">>>".data line
  | .note, st, line => canConsumeIndented st line
  | .math, st, line => canConsumeIndented st line
  | .explicitCode, st, line => canConsumeIndented st line
  | .doubleColon, st, line => canConsumeIndented st line

/-- `can_parse`, per parser. -/
def can_parse : ParserKind → Line → Bool
  | .prompt, line => startsWithL ">>>".data line
  | .output, line => !(strip line).isEmpty
  | .note, line => strip line = ".. note::".data || strip line = ".. warning::".data
  | .math, line => strip line = ".. math::".data
  | .explicitCode, line =>
    (litPre ".. code-block::".data line).isSome
      || (litPre ".. productionlist::".data line).isSome
  | .doubleColon, line => endsWithL "::".data (rstrip line)

/-- `re.sub(r'::$', '', line)`: remove a `::` at the very end (or just
before a final newline). -/
def subColonEnd (line : Line) : Line :=
  if endsWithL "::".data line then line.dropLast.dropLast
  else if endsWithL "::\n".data line then line.dropLast.dropLast.dropLast ++ ['\n']
  else line

/-- Language argument of the explicit code-block directive:
`match.group('language').strip() or current_language`. -/
def explicitLang (rest current : List Char) : List Char :=
  let lang := strip (rest.takeWhile (fun c => c ≠ '\n'))
  if lang.isEmpty then current else lang

/-- `initiate_parsing`, per parser.  Returns the `IBlockBeginning` remainder
and the new parser state.  The explicit code-block parser's `assert match`
is modelled by `none` when the directive pattern does not match. -/
def initiate_parsing (k : ParserKind) (line : Line) (current_language : List Char)
    (st : BlockState) : Option (List Char × BlockState) :=
  match k with
  | .prompt =>
    let st := startBlock .prompt "python".data st
    (consumeP .prompt line st).map (fun st' => ([], st'))
  | .output =>
    let st := startBlock .output [] st
    (consumeP .output line st).map (fun st' => ([], st'))
  | .doubleColon =>
    let p :=
      if strip line = ".. autosummary::".data then (([] : List Char), ([] : Line))
      else (current_language, subColonEnd line)
    some (rstrip p.2 ++ "\n\n".data, startBlockIndented .doubleColon p.1 st)
  | .math => some ([], startBlockIndented .math [] st)
  | .note =>
    let label :=
      if containsSub "note".data line then "\n**Note**\n".data else "\n**Warning**\n".data
    some ([], startBlockIndented .note label st)
  | .explicitCode =>
    match litPre ".. code-block::".data line with
    | some rest => some ([], startBlockIndented .explicitCode (explicitLang rest current_language) st)
    | none =>
      match litPre ".. productionlist::".data line with
      | some rest =>
        some ([], startBlockIndented .explicitCode (explicitLang rest current_language) st)
      | none => none

/-- The `follower` links (only the prompt parser has one). -/
def follower : ParserKind → Option ParserKind
  | .prompt => some .output
  | _ => none

/-- `BLOCK_PARSERS`, in source order. -/
def BLOCK_PARSERS : List ParserKind :=
  [.prompt, .note, .math, .explicitCode, .doubleColon]

/-! ## The conversion driver -/

/-- One `BlockState` per parser instance. -/
structure ParserStates where
  prompt : BlockState
  output : BlockState
  note : BlockState
  math : BlockState
  explicitCode : BlockState
  doubleColon : BlockState
deriving DecidableEq, Repr

def initParserStates : ParserStates :=
  ⟨initBlockState, initBlockState, initBlockState, initBlockState, initBlockState,
   initBlockState⟩

def getPS (ps : ParserStates) : ParserKind → BlockState
  | .prompt => ps.prompt
  | .output => ps.output
  | .note => ps.note
  | .math => ps.math
  | .explicitCode => ps.explicitCode
  | .doubleColon => ps.doubleColon

def setPS (ps : ParserStates) : ParserKind → BlockState → ParserStates
  | .prompt, b => { ps with prompt := b }
  | .output, b => { ps with output := b }
  | .note, b => { ps with note := b }
  | .math, b => { ps with math := b }
  | .explicitCode, b => { ps with explicitCode := b }
  | .doubleColon, b => { ps with doubleColon := b }

/-- Ghost trace of block lifecycle events, newest first: `initiate_parsing`
(which always calls `_start_block`) records a `start`, `finish_consumption`
records a `finish`. -/
inductive TraceEv
  | start (k : ParserKind)
  | finish (k : ParserKind)
deriving DecidableEq, Repr

/-- A newest-first trace is balanced when it is a sequence of
`finish k, start k` pairs: every recorded start has a matching later finish
of the same parser. -/
def balancedTrace : List TraceEv → Bool
  | [] => true
  | .finish k :: .start k' :: rest => decide (k = k') && balancedTrace rest
  | _ => false

/-- The driver's local state (`language`, `markdown`, `active_parser`,
`lines_buffer`, `most_recent_section`), the per-instance parser states, and
the ghost event trace. -/
structure ConvState where
  language : List Char
  markdown : List Char
  activeParser : Option ParserKind
  states : ParserStates
  linesBuffer : List Line
  mostRecentSection : Option (List Char)
  events : List TraceEv
deriving DecidableEq, Repr

def initConvState : ConvState :=
  ⟨"python".data, [], none, initParserStates, [], none, []⟩

/-- The directive-substitution pass of `flush_buffer`: every rule of
`DIRECTIVES`, in table order, as a full-text `re.sub`. -/
def applyDirectives (t : List Char) : List Char :=
  DIRECTIVES.foldl (fun t m => scanSub m t) t

/-- The section-header pass of `flush_buffer`:
`lines.replace('\n' + section + '\n' + '-'*len(section), '\n#### ' + section + '\n')`
for every section (note the replaced pattern starts with a newline). -/
def applySections (t : List Char) : List Char :=
  RST_SECTION_NAMES.foldl
    (fun t sec =>
      pyReplace ('\n' :: sec ++ '\n' :: sectionUnderline sec)
        ('\n' :: "#### ".data ++ sec ++ ['\n']) t)
    t

/-- `flush_buffer`: join the buffered lines, apply every directive
substitution in table order, then rewrite section headers. -/
def flush_buffer (buf : List Line) : List Char :=
  applySections (applyDirectives (joinLines buf))

/-- `str.isidentifier()` (ASCII model). -/
def pyIsIdentifier (l : Line) : Bool :=
  match l with
  | [] => false
  | c :: rest => (c.isAlpha || c = '_') && rest.all (fun d => isWordChar d)

def stripFinalNl (l : Line) : Line := if l.getLast? = some '\n' then l.dropLast else l

/-- The signature regex `^(?P<name>\S+)\((?P<params>.*)\)$`: the text must
end in `)`, contain no newline, and the greedy `\S+` backtracks to the last
position `k` such that the first `k` characters are non-space and position
`k` holds `(`.  Returns the `name` group. -/
def signatureName (line : Line) : Option Line :=
  let core := stripFinalNl line
  match core.getLast? with
  | some ')' =>
    if core.any (fun c => c = '\n') then none
    else
      match (List.range core.length).reverse.find? (fun kk =>
          (kk != 0) && (core.get? kk == some '(')
            && (core.take kk).all (fun c => !isPySpace c)) with
      | some kk => some (core.take kk)
      | none => none
  | _ => none

/-- `signature_match and signature_match.group('name').isidentifier()`. -/
def is_signature (line : Line) : Bool :=
  match signatureName line with
  | some nm => pyIsIdentifier nm
  | none => false

/-- The `(?P<g>.+)$` tail: a greedy non-newline run, then end of text or a
sole final newline. -/
def dollarTail (rest : List Char) : Option (List Char) :=
  let t := rest.takeWhile (fun c => c ≠ '\n')
  if t.isEmpty then none
  else
    match rest.drop t.length with
    | [] => some t
    | ['\n'] => some t
    | _ => none

/-- `^(?P<argument>[^:\s]+) : (?P<type>.+)$` on the trimmed line. -/
def argTypeMatch (t : Line) : Option (Line × Line) :=
  let run := t.takeWhile (fun c => c ≠ ':' && !isPySpace c)
  if run.isEmpty then none
  else
    match litPre " : ".data (t.drop run.length) with
    | none => none
    | some rest => (dollarTail rest).map (fun ty => (run, ty))

/-- `^(?P<other_args>\*\*kwargs|\*args)$`. -/
def kwargsArgsMatch (t : Line) : Option Line :=
  if t = "**kwargs".data || t = "**kwargs\n".data then some "**kwargs".data
  else if t = "*args".data || t = "*args\n".data then some "*args".data
  else none

/-- `^(?P<arg1>[^:\s]+\d), (?P<arg2>[^:\s]+\d), \.\.\. : (?P<type>.+)$` with
full backtracking over the two greedy `[^:\s]+\d` groups (longest first). -/
def numpyArgsMatch (t : Line) : Option (Line × Line × Line) :=
  let run1 := t.takeWhile (fun c => c ≠ ':' && !isPySpace c)
  (List.range (run1.length + 1)).reverse.findSome? (fun k1 =>
    if k1 < 2 then none
    else
      match run1.get? (k1 - 1) with
      | some d1 =>
        if !d1.isDigit then none
        else
          match litPre ", ".data (t.drop k1) with
          | none => none
          | some rest2 =>
            let run2 := rest2.takeWhile (fun c => c ≠ ':' && !isPySpace c)
            (List.range (run2.length + 1)).reverse.findSome? (fun k2 =>
              if k2 < 2 then none
              else
                match run2.get? (k2 - 1) with
                | some d2 =>
                  if !d2.isDigit then none
                  else
                    match litPre ", ... : ".data (rest2.drop k2) with
                    | none => none
                    | some rest3 =>
                      (dollarTail rest3).map (fun ty => (run1.take k1, run2.take k2, ty))
                | none => none)
      | none => none)

/-- `re.search(HIGHLIGHT_PATTERN, line)`, returning the `language` group. -/
def hlSearchAux : Nat → List Char → Option (List Char)
  | _, [] => none
  | 0, _ => none
  | fuel + 1, s@(_ :: rest) =>
    match litPre ".. highlight:: ".data s with
    | some after =>
      let lang := after.takeWhile (fun c => c ≠ '\n')
      if lang.isEmpty then hlSearchAux fuel rest else some lang
    | none => hlSearchAux fuel rest

def hlSearch (s : List Char) : Option (List Char) := hlSearchAux s.length s

/-- `text.split('\n')`. -/
def splitLines : List Char → List Line
  | [] => [[]]
  | c :: rest =>
    if c = '\n' then [] :: splitLines rest
    else
      match splitLines rest with
      | l :: ls => (c :: l) :: ls
      | [] => [[c]]

/-- First starter whose `can_parse` accepts the line, in `BLOCK_PARSERS`
order. -/
def findStarter (line : Line) : Option ParserKind :=
  BLOCK_PARSERS.find? (fun k => can_parse k line)

/-- The active-parser phase of one loop iteration: feed the line to the
active parser, or finish it (flushing the plain-text buffer first) and
possibly hand over to its follower. -/
def activePhase (st : ConvState) (line : Line) : Option ConvState :=
  match st.activeParser with
  | none => some st
  | some k =>
    if can_consume k (getPS st.states k) line then
      (consumeP k line (getPS st.states k)).map
        (fun bs => { st with states := setPS st.states k bs })
    else
      let flushed := flush_buffer st.linesBuffer
      match finish_consumption k false (getPS st.states k) with
      | none => none
      | some (frag, bs) =>
        let st' := { st with
          markdown := st.markdown ++ flushed ++ frag,
          states := setPS st.states k bs,
          linesBuffer := [],
          events := .finish k :: st.events,
          activeParser := none }
        match follower k with
        | some f =>
          if can_parse f line then
            match initiate_parsing f line st'.language (getPS st'.states f) with
            | none => none
            | some (_, bs') =>
              some { st' with
                activeParser := some f,
                states := setPS st'.states f bs',
                events := .start f :: st'.events }
          else some st'
        | none => some st'

/-- The no-active-parser phase: offer the line to the starters, then apply
the list-item / section-context / highlight rewrites and append the line to
the plain-text buffer. -/
def starterPhase (st : ConvState) (line : Line) : Option ConvState :=
  let trimmed := lstrip line
  let startRes : Option (ConvState × Line) :=
    match findStarter line with
    | some k =>
      match initiate_parsing k line st.language (getPS st.states k) with
      | some (rem, bs) =>
        some ({ st with
          activeParser := some k,
          states := setPS st.states k bs,
          events := .start k :: st.events }, rem)
      | none => none
    | none => some (st, line)
  match startRes with
  | none => none
  | some (st1, line1) =>
    let p : Line × Option (List Char) :=
      match argTypeMatch trimmed with
      | some (arg, ty) => ("- `".data ++ arg ++ "`: ".data ++ ty, st1.mostRecentSection)
      | none =>
        if st1.mostRecentSection = some "Parameters".data then
          match kwargsArgsMatch trimmed with
          | some other => ("- `".data ++ other ++ ['`'], st1.mostRecentSection)
          | none =>
            match numpyArgsMatch trimmed with
            | some (a1, a2, ty) =>
              ("- `".data ++ a1 ++ "`, `".data ++ a2 ++ "`, `...`: ".data ++ ty,
               st1.mostRecentSection)
            | none => (line1, st1.mostRecentSection)
        else
          if decide (rstrip trimmed ∈ RST_SECTION_NAMES) then (line1, some (rstrip trimmed))
          else (line1, st1.mostRecentSection)
    let language :=
      match hlSearch p.1 with
      | some lang => if (strip lang).isEmpty then st1.language else strip lang
      | none => st1.language
    some { st1 with
      linesBuffer := st1.linesBuffer ++ [p.1],
      language := language,
      mostRecentSection := p.2 }

/-- One iteration of the driver loop (note the source never clears
`is_first_line`, so the signature check applies to every line and, when it
fires, skips all other processing of the line). -/
def processLine (st : ConvState) (line : Line) : Option ConvState :=
  if is_signature line then
    some { st with markdown := st.markdown ++ "```python\n".data ++ line ++ "\n```\n".data }
  else
    match activePhase st line with
    | none => none
    | some st' =>
      match st'.activeParser with
      | some _ => some st'
      | none => starterPhase st' line

/-- Run the driver loop over all lines of the input. -/
def runLines (text : List Char) : Option ConvState :=
  (splitLines text).foldlM processLine initConvState

/-- The epilogue: flush the buffer, then finish a still-active parser as
final.  Returns the final markdown and the final driver state. -/
def finalizeConv (st : ConvState) : Option (List Char × ConvState) :=
  let flushed := flush_buffer st.linesBuffer
  let st1 := { st with markdown := st.markdown ++ flushed, linesBuffer := ([] : List Line) }
  match st1.activeParser with
  | none => some (st1.markdown, st1)
  | some k =>
    match finish_consumption k true (getPS st1.states k) with
    | none => none
    | some (frag, bs) =>
      some (st1.markdown ++ frag,
        { st1 with
          markdown := st1.markdown ++ frag,
          activeParser := none,
          states := setPS st1.states k bs,
          events := .finish k :: st1.events })

/-- `rst_to_markdown` on character lists (`none` models an uncaught
exception). -/
def rstToMarkdownL (text : List Char) : Option (List Char) :=
  (runLines text).bind (fun st => (finalizeConv st).map (fun p => p.1))

/-- `rst_to_markdown(text)`. -/
def rst_to_markdown (text : String) : Option String :=
  (rstToMarkdownL text.data).map (fun l => ⟨l⟩)

/-- The final event trace of a conversion (ghost instrumentation). -/
def conversionTrace (text : List Char) : Option (List TraceEv) :=
  (runLines text).bind (fun st => (finalizeConv st).map (fun p => p.2.events))

/-! ## Auxiliary notions used to state the claims -/

/-- `len(line) - len(line.lstrip())`: the leading-whitespace width. -/
def indentOf (l : Line) : Nat := l.length - (lstrip l).length

/-- State of an indented block parser right after `_start_block` appended
the fence-open line: block started, at the block beginning, no indent
captured yet. -/
def freshIndentedState (fence : Line) : BlockState := ⟨[fence], true, true, none⟩

/-- Feed a sequence of lines to a parser through `consume`. -/
def consumeMany (k : ParserKind) (st : BlockState) (ls : List Line) : Option BlockState :=
  ls.foldlM (fun s l => consumeP k l s) st

/-- What `IndentedBlockParser.consume` actually accumulates from the
consumed lines: at most the single first line is skipped (when blank), and
the indent width is captured from the first line consumed after that
possible skip, blank or not. -/
def indentedCodeModel (ls : List Line) : List Line :=
  match ls with
  | [] => []
  | l0 :: rest =>
    let ls' := if (strip l0).isEmpty then rest else ls
    match ls' with
    | [] => []
    | h :: _ => ls'.map (List.drop (indentOf h))

/-- Modelled from the claim's words (for comparison with the code): the
whole leading run of blank lines is skipped, and the indent width is
captured from the first non-blank content line. -/
def indentedClaimModel (ls : List Line) : List Line :=
  let ls' := ls.dropWhile (fun l => (strip l).isEmpty)
  match ls' with
  | [] => []
  | h :: _ => ls'.map (List.drop (indentOf h))

/-- A line that is blank or begins with whitespace (the continuation
condition the claim describes for indentation-delimited blocks). -/
def startsBlankOrIndented (l : Line) : Bool :=
  match l with
  | [] => true
  | c :: _ => isPySpace c

/-- The driver invariant: whenever a parser is active its block has started
and its buffer is non-empty (so `consume` and `finish_consumption` cannot
fail), and the event trace is a balanced sequence of start/finish pairs with
at most one pending start (the active parser's). -/
def ConvInv (st : ConvState) : Prop :=
  (∀ k, st.activeParser = some k →
      (getPS st.states k).blockStarted = true ∧ (getPS st.states k).buffer ≠ [])
    ∧ (st.activeParser = none → balancedTrace st.events = true)
    ∧ (∀ k, st.activeParser = some k →
        ∃ pre, st.events = TraceEv.start k :: pre ∧ balancedTrace pre = true)

/-- Per-line absence of recognized markup, as the driver tests lines: no
signature echo, no block starter, no list-item match, no section title, no
highlight directive on the line. -/
def lineClean (l : Line) : Bool :=
  !(is_signature l) && (findStarter l).isNone && (argTypeMatch (lstrip l)).isNone
    && !(decide (rstrip (lstrip l) ∈ RST_SECTION_NAMES)) && (hlSearch l).isNone

/-- The per-line reading of the no-recognized-markup hypothesis (each
directive rule searched within each single line, as the claim words it). -/
def c8LineClean (l : Line) : Bool :=
  !(is_signature l) && (findStarter l).isNone && (argTypeMatch (lstrip l)).isNone
    && !(decide (rstrip (lstrip l) ∈ RST_SECTION_NAMES))
    && DIRECTIVES.all (fun m => !scanSearch m l)

/-! ## General lemmas about the substitution machinery -/

theorem scanSubAux_id (m : Matcher) :
    ∀ (fuel : Nat) (s : List Char), scanSearch m s = false → scanSubAux m fuel s = s := by
  intro fuel
  induction fuel with
  | zero =>
    intro s h
    cases s with
    | nil =>
      cases hm : m [] with
      | none => simp [scanSubAux, hm]
      | some v => simp [scanSearch, hm] at h
    | cons c rest => simp [scanSubAux]
  | succ n ih =>
    intro s h
    cases s with
    | nil =>
      cases hm : m [] with
      | none => simp [scanSubAux, hm]
      | some v => simp [scanSearch, hm] at h
    | cons c rest =>
      have h2 := h
      simp only [scanSearch, Bool.or_eq_false_iff] at h2
      cases hm : m (c :: rest) with
      | some v => rw [hm] at h2; simp at h2
      | none => simp [scanSubAux, hm, ih rest h2.2]

theorem scanSub_id (m : Matcher) (s : List Char) (h : scanSearch m s = false) :
    scanSub m s = s :=
  scanSubAux_id m s.length s h

theorem foldlScanSub_id :
    ∀ (ms : List Matcher) (t : List Char), (∀ m ∈ ms, scanSearch m t = false) →
      ms.foldl (fun t m => scanSub m t) t = t := by
  intro ms
  induction ms with
  | nil => intro t _; simp
  | cons m ms ih =>
    intro t h
    have h1 : scanSearch m t = false := h m (by simp)
    simp only [List.foldl_cons, scanSub_id m t h1]
    exact ih t (fun m' hm' => h m' (by simp [hm']))

theorem applyDirectives_id (t : List Char)
    (h : DIRECTIVES.all (fun m => !scanSearch m t) = true) : applyDirectives t = t := by
  apply foldlScanSub_id
  intro m hm
  have := List.all_eq_true.mp h m hm
  simpa using this

theorem pyReplaceAux_id (old new : List Char) :
    ∀ (fuel : Nat) (s : List Char), containsSub old s = false →
      pyReplaceAux old new fuel s = s := by
  intro fuel
  induction fuel with
  | zero =>
    intro s _
    cases s with
    | nil => simp [pyReplaceAux]
    | cons c rest => simp [pyReplaceAux]
  | succ n ih =>
    intro s h
    cases s with
    | nil => simp [pyReplaceAux]
    | cons c rest =>
      have h2 := h
      simp only [containsSub, Bool.or_eq_false_iff] at h2
      cases hp : litPre old (c :: rest) with
      | some after => rw [hp] at h2; simp at h2
      | none => simp [pyReplaceAux, hp, ih rest h2.2]

theorem pyReplace_id (old new s : List Char) (h : containsSub old s = false) :
    pyReplace old new s = s :=
  pyReplaceAux_id old new s.length s h

theorem foldlPyReplace_id (hdr rep : List Char → List Char) :
    ∀ (secs : List (List Char)) (t : List Char),
      (∀ sec ∈ secs, containsSub (hdr sec) t = false) →
      secs.foldl (fun t sec => pyReplace (hdr sec) (rep sec) t) t = t := by
  intro secs
  induction secs with
  | nil => intro t _; simp
  | cons sec secs ih =>
    intro t h
    have h1 : containsSub (hdr sec) t = false := h sec (by simp)
    simp only [List.foldl_cons, pyReplace_id _ _ _ h1]
    exact ih t (fun s' hs' => h s' (by simp [hs']))

theorem applySections_id (t : List Char)
    (h : RST_SECTION_NAMES.all
      (fun sec => !containsSub ('\n' :: sec ++ '\n' :: sectionUnderline sec) t) = true) :
    applySections t = t := by
  apply foldlPyReplace_id
    (fun sec => '\n' :: sec ++ '\n' :: sectionUnderline sec)
    (fun sec => '\n' :: "#### ".data ++ sec ++ ['\n'])
  intro sec hsec
  have := List.all_eq_true.mp h sec hsec
  simpa using this

theorem splitLines_ne_nil : ∀ t : List Char, splitLines t ≠ [] := by
  intro t
  cases t with
  | nil => simp [splitLines]
  | cons c rest =>
    by_cases hc : c = '\n'
    · simp [splitLines, hc]
    · simp only [splitLines, if_neg hc]
      cases splitLines rest with
      | nil => simp
      | cons l ls => simp

theorem joinLines_splitLines : ∀ t : List Char, joinLines (splitLines t) = t := by
  intro t
  induction t with
  | nil => simp [splitLines, joinLines]
  | cons c rest ih =>
    by_cases hc : c = '\n'
    · subst hc
      simp only [splitLines, if_pos rfl]
      cases hs : splitLines rest with
      | nil => exact absurd hs (splitLines_ne_nil rest)
      | cons l ls =>
        rw [hs] at ih
        simp [joinLines, ih]
    · simp only [splitLines, if_neg hc]
      cases hs : splitLines rest with
      | nil => exact absurd hs (splitLines_ne_nil rest)
      | cons l ls =>
        rw [hs] at ih
        cases ls with
        | nil => simp_all [joinLines]
        | cons x xs => simp_all [joinLines]

theorem endsWith_colon_nl_false (line : Line) (h : line.all (fun c => c ≠ '\n') = true) :
    endsWithL "::\n".data line = false := by
  cases hrev : line.reverse with
  | nil => simp [endsWithL, hrev, litPre]
  | cons c cs =>
    have hc : c ∈ line := by
      rw [← List.mem_reverse, hrev]; exact List.mem_cons_self c cs
    have hcn : c ≠ '\n' := by simpa using List.all_eq_true.mp h c hc
    have hne : ('\n' : Char) ≠ c := fun hh => hcn hh.symm
    have hdata : "::\n".data.reverse = ['\n', ':', ':'] := by decide
    simp [endsWithL, hrev, hdata, litPre, hne]

/-! ## Claim theorems (concrete and classifier claims) -/

/-- Claim C7: the input of a prompt line followed by an output line converts
to a python-tagged fenced block containing the de-prompted code, immediately
followed by a separate untagged fenced block containing the output line; and
the output parser is not among the self-triggering block starters. -/
theorem claim_C7_prompt_output :
    rst_to_markdown ">>> x = 1\n1" = some "```python\nx = 1\n```\n\n```\n1\n```\n"
      ∧ ParserKind.output ∉ BLOCK_PARSERS :=
  ⟨by decide, by decide⟩

/-- Claim C9: the classifier returns true exactly when the input contains a
section title with its dash underline (followed by a newline), or some
directive rule's pattern matches, or a word or space character is followed
by the double-colon marker and a newline, or an interactive-session prompt
preceded by a newline occurs; in particular it accepts a well-formed
Returns header and rejects plain prose. -/
theorem claim_C9_classifier :
    (∀ t : List Char, looksLikeRstL t
        = (hasSectionUnderline t || matchesAnyDirective t
            || hasTextColonColon t || hasPromptExample t))
      ∧ looks_like_rst "Some text\n\nReturns\n-------\nSome value\n" = true
      ∧ looks_like_rst "This is just plain text." = false := by
  refine ⟨?_, by decide, by decide⟩
  intro t
  cases h1 : hasSectionUnderline t <;> cases h2 : matchesAnyDirective t <;>
    simp [looksLikeRstL, h1, h2]

/-- Claim C10: the classifier's section indicator is only recognized when the
underline is followed by a newline, the double-colon indicator requires a
following newline, and the prompt indicator requires a preceding newline;
each shown by a pair of inputs differing only in that newline. -/
theorem claim_C10_newline_boundaries :
    looks_like_rst "Returns\n-------" = false
      ∧ looks_like_rst "Returns\n-------\n" = true
      ∧ looks_like_rst "x ::" = false
      ∧ looks_like_rst "x ::\n" = true
      ∧ looks_like_rst ">>> 1" = false
      ∧ looks_like_rst "\n>>> 1" = true :=
  ⟨by decide, by decide, by decide, by decide, by decide, by decide⟩

/-- Claim C3 counterexample: the claim's own example input (a Parameters
header at the very start of the text, with no preceding newline) is not
rewritten to a level-4 heading at all — the replaced pattern requires a
preceding newline, so the output keeps the underlined header verbatim and
contains no heading marker. -/
theorem claim_C3_counterexample :
    rst_to_markdown "Parameters\n----------\n**kwargs"
        = some "Parameters\n----------\n- `**kwargs`"
      ∧ containsSub "####".data "Parameters\n----------\n- `**kwargs`".data = false :=
  ⟨by decide, by decide⟩

/-- Claim C3 (amended): only occurrences of a section title with its dash
underline that are immediately preceded by a newline are rewritten by the
flush step (the replaced pattern is newline + title + newline + underline);
when no such newline-preceded occurrence exists the section pass leaves the
text unchanged, and the claim's example converts to a level-4 heading
exactly when a newline precedes the header (directly or after earlier
text). -/
theorem claim_C3_amended :
    (∀ t : List Char,
        RST_SECTION_NAMES.all
            (fun sec => !containsSub ('\n' :: sec ++ '\n' :: sectionUnderline sec) t) = true →
          applySections t = t)
      ∧ rst_to_markdown "\nParameters\n----------\n**kwargs"
          = some "\n#### Parameters\n\n- `**kwargs`"
      ∧ rst_to_markdown "Intro\n\nParameters\n----------\n**kwargs"
          = some "Intro\n\n#### Parameters\n\n- `**kwargs`"
      ∧ rst_to_markdown "Parameters\n----------\n**kwargs"
          = some "Parameters\n----------\n- `**kwargs`" :=
  ⟨fun t h => applySections_id t h, by decide, by decide, by decide⟩

/-- Witness for the amended claim C3, instantiating the universal part on a
concrete text with no newline-preceded section header. -/
theorem claim_C3_amended_witness :
    applySections "Parameters\n----------\nrest".data = "Parameters\n----------\nrest".data :=
  claim_C3_amended.1 "Parameters\n----------\nrest".data (by decide)

/-- Claim C5 counterexample: feeding a freshly started indented block parser
the lines blank, blank, two-space-indented x leaves the second blank line in
the buffer and captures indent width 0 from it, so the indented x is stored
verbatim — not the claimed buffer in which the whole leading blank run is
skipped and the indent 2 is stripped from x. -/
theorem claim_C5_counterexample :
    (consumeMany .doubleColon (freshIndentedState "```python".data)
          [[], [], "  x".data]).map BlockState.buffer
        = some ["```python".data, [], "  x".data]
      ∧ "```python".data :: indentedClaimModel [[], [], "  x".data]
          = ["```python".data, "x".data]
      ∧ (["```python".data, ([] : Line), "  x".data] : List Line)
          ≠ ["```python".data, "x".data] :=
  ⟨by decide, by decide, by decide⟩

/-- Claim C6 counterexample: a line whose double-colon marker is followed by
trailing whitespace does trigger the double-colon block parser, but
`re.sub('::$', ...)` does not strip the marker there, so the returned
remainder still contains it. -/
theorem claim_C6_counterexample :
    can_parse .doubleColon "x::  ".data = true
      ∧ initiate_parsing .doubleColon "x::  ".data "python".data initBlockState
          = some ("x::\n\n".data, freshIndentedState "```python".data)
      ∧ containsSub "::".data "x::\n\n".data = true :=
  ⟨by decide, by decide, by decide⟩

/-- Claim C6 (amended): when a double-colon block is triggered on a line that
trims to the autosummary directive the language is empty and the remainder
is just the two appended newlines; otherwise the block's language is the
current highlighting language and the marker is stripped only when the line
ends exactly in the double colon — a (newline-free) triggering line with
trailing whitespace keeps its marker in the right-trimmed remainder. -/
theorem claim_C6_amended :
    (∀ (line : Line) (lang : List Char) (st : BlockState),
        strip line = ".. autosummary::".data →
          initiate_parsing .doubleColon line lang st
            = some ("\n\n".data, startBlockIndented .doubleColon [] st))
      ∧ (∀ (line : Line) (lang : List Char) (st : BlockState),
          strip line ≠ ".. autosummary::".data → endsWithL "::".data line = true →
            initiate_parsing .doubleColon line lang st
              = some (rstrip (line.dropLast.dropLast) ++ "\n\n".data,
                  startBlockIndented .doubleColon lang st))
      ∧ (∀ (line : Line) (lang : List Char) (st : BlockState),
          strip line ≠ ".. autosummary::".data → endsWithL "::".data line = false →
            line.all (fun c => c ≠ '\n') = true →
            initiate_parsing .doubleColon line lang st
              = some (rstrip line ++ "\n\n".data,
                  startBlockIndented .doubleColon lang st)) := by
  refine ⟨?_, ?_, ?_⟩
  · intro line lang st h
    simp [initiate_parsing, h, rstrip, lstrip]
  · intro line lang st h1 h2
    simp [initiate_parsing, h1, subColonEnd, h2]
  · intro line lang st h1 h2 h3
    simp [initiate_parsing, h1, subColonEnd, h2, endsWith_colon_nl_false line h3]

/-- Witness for the amended claim C6 at three concrete triggering lines. -/
theorem claim_C6_amended_witness :
    initiate_parsing .doubleColon ".. autosummary::".data "python".data initBlockState
        = some ("\n\n".data, startBlockIndented .doubleColon [] initBlockState)
      ∧ initiate_parsing .doubleColon "Example ::".data "python".data initBlockState
          = some ("Example\n\n".data, startBlockIndented .doubleColon "python".data initBlockState)
      ∧ initiate_parsing .doubleColon "x::  ".data "python".data initBlockState
          = some ("x::\n\n".data, startBlockIndented .doubleColon "python".data initBlockState) := by
  refine ⟨claim_C6_amended.1 _ _ _ (by decide), ?_, ?_⟩
  · exact (claim_C6_amended.2.1 "Example ::".data "python".data initBlockState
      (by decide) (by decide)).trans (by decide)
  · exact (claim_C6_amended.2.2 "x::  ".data "python".data initBlockState
      (by decide) (by decide) (by decide)).trans (by decide)

/-! ## Characterization of the indented block parser (claim C5) -/

theorem consumeIndented_phase2 :
    ∀ (ls : List Line) (buf : List Line) (w : Nat),
      ls.foldlM (fun s l => consumeIndented l s) (⟨buf, true, false, some w⟩ : BlockState)
        = some ⟨buf ++ ls.map (List.drop w), true, false, some w⟩ := by
  intro ls
  induction ls with
  | nil => intro buf w; simp
  | cons l rest ih =>
    intro buf w
    have hstep : consumeIndented l ⟨buf, true, false, some w⟩
        = some ⟨buf ++ [l.drop w], true, false, some w⟩ := by
      simp [consumeIndented, consumeIndentedCore, consumeBase]
    simp only [List.foldlM_cons, hstep, Option.bind_eq_bind, Option.some_bind]
    rw [ih]
    simp

theorem consumeIndented_phase1 :
    ∀ (ls : List Line) (buf : List Line),
      ls.foldlM (fun s l => consumeIndented l s) (⟨buf, true, false, none⟩ : BlockState)
        = some (match ls with
            | [] => (⟨buf, true, false, none⟩ : BlockState)
            | h :: _ => ⟨buf ++ ls.map (List.drop (indentOf h)), true, false, some (indentOf h)⟩) := by
  intro ls buf
  cases ls with
  | nil => simp
  | cons h rest =>
    have hstep : consumeIndented h ⟨buf, true, false, none⟩
        = some ⟨buf ++ [h.drop (indentOf h)], true, false, some (indentOf h)⟩ := by
      simp [consumeIndented, consumeIndentedCore, consumeBase, indentOf]
    simp only [List.foldlM_cons, hstep, Option.bind_eq_bind, Option.some_bind]
    rw [consumeIndented_phase2]
    simp

theorem consumeIndented_run (fence : Line) (ls : List Line) :
    (ls.foldlM (fun s l => consumeIndented l s)
        (freshIndentedState fence)).map BlockState.buffer
      = some (fence :: indentedCodeModel ls) := by
  cases ls with
  | nil => simp [freshIndentedState, indentedCodeModel]
  | cons l0 rest =>
    by_cases hb : (strip l0).isEmpty = true
    · have hstep : consumeIndented l0 (freshIndentedState fence)
          = some ⟨[fence], true, false, none⟩ := by
        simp [consumeIndented, freshIndentedState, hb]
      simp only [List.foldlM_cons, hstep, Option.bind_eq_bind, Option.some_bind]
      rw [consumeIndented_phase1]
      cases rest with
      | nil => simp [indentedCodeModel, hb]
      | cons h t => simp [indentedCodeModel, hb]
    · have hb' : (strip l0).isEmpty = false := by simpa using hb
      have hstep : consumeIndented l0 (freshIndentedState fence)
          = some ⟨[fence] ++ [l0.drop (indentOf l0)], true, false, some (indentOf l0)⟩ := by
        simp [consumeIndented, freshIndentedState, hb', consumeIndentedCore, consumeBase,
          indentOf]
      simp only [List.foldlM_cons, hstep, Option.bind_eq_bind, Option.some_bind]
      rw [consumeIndented_phase2]
      simp [indentedCodeModel, hb']

theorem strip_blank_head (c : Char) (cs : List Char)
    (h : (strip (c :: cs)).isEmpty = true) : isPySpace c = true := by
  by_contra hc
  have hc' : isPySpace c = false := by simpa using hc
  unfold strip lstrip rstrip at h
  rw [List.dropWhile_cons, if_neg (by simp [hc'])] at h
  simp only [List.isEmpty_iff, List.reverse_eq_nil_iff, List.dropWhile_eq_nil_iff] at h
  have := h c (by simp)
  rw [hc'] at this
  exact Bool.false_ne_true this

theorem canConsumeIndented_eq (st : BlockState) (l : Line) :
    canConsumeIndented st l = startsBlankOrIndented l := by
  by_cases h : (st.isBlockBeginning && (strip l).isEmpty) = true
  · rw [canConsumeIndented.eq_def, if_pos h]
    have hblank : (strip l).isEmpty = true := by
      simp only [Bool.and_eq_true] at h
      exact h.2
    cases l with
    | nil => rfl
    | cons c cs =>
      have := strip_blank_head c cs hblank
      simp [startsBlankOrIndented, this]
  · rw [canConsumeIndented.eq_def, if_neg h]
    cases l <;> rfl

/-- Claim C5 (amended): for every indentation-delimited variant, a started
block consumes lines as follows — at most the single first consumed line is
skipped (exactly when it is blank), the indentation width is captured from
the first consumed line after that possible skip whether or not it is blank
(an empty line captures width 0), and that exact number of leading
characters is sliced off it and every later consumed line; the parser keeps
consuming exactly the lines that are empty or begin with whitespace. -/
theorem claim_C5_amended :
    (∀ (fence : Line) (ls : List Line),
        (consumeMany .note (freshIndentedState fence) ls).map BlockState.buffer
          = some (fence :: indentedCodeModel ls))
      ∧ (∀ (fence : Line) (ls : List Line),
          (consumeMany .math (freshIndentedState fence) ls).map BlockState.buffer
            = some (fence :: indentedCodeModel ls))
      ∧ (∀ (fence : Line) (ls : List Line),
          (consumeMany .explicitCode (freshIndentedState fence) ls).map BlockState.buffer
            = some (fence :: indentedCodeModel ls))
      ∧ (∀ (fence : Line) (ls : List Line),
          (consumeMany .doubleColon (freshIndentedState fence) ls).map BlockState.buffer
            = some (fence :: indentedCodeModel ls))
      ∧ (∀ (st : BlockState) (l : Line),
          canConsumeIndented st l = startsBlankOrIndented l) :=
  ⟨fun fence ls => consumeIndented_run fence ls,
   fun fence ls => consumeIndented_run fence ls,
   fun fence ls => consumeIndented_run fence ls,
   fun fence ls => consumeIndented_run fence ls,
   fun st l => canConsumeIndented_eq st l⟩

/-! ## Driver lemmas about the most-recent-section context (claim C4) -/

theorem activePhase_mostRecent (st : ConvState) (l : Line) (st1 : ConvState)
    (h : activePhase st l = some st1) : st1.mostRecentSection = st.mostRecentSection := by
  unfold activePhase at h
  cases hA : st.activeParser with
  | none =>
    simp only [hA] at h
    rw [Option.some_inj] at h
    subst h; rfl
  | some k =>
    simp only [hA] at h
    by_cases hcc : can_consume k (getPS st.states k) l = true
    · rw [if_pos hcc] at h
      rcases Option.map_eq_some'.mp h with ⟨bs, _, heq⟩
      subst heq; rfl
    · rw [if_neg hcc] at h
      cases hf : finish_consumption k false (getPS st.states k) with
      | none => rw [hf] at h; simp at h
      | some p =>
        rw [hf] at h
        obtain ⟨frag, bs⟩ := p
        cases hfo : follower k with
        | none =>
          simp only [hfo] at h
          rw [Option.some_inj] at h
          subst h; rfl
        | some f =>
          simp only [hfo] at h
          by_cases hcp : can_parse f l = true
          · rw [if_pos hcp] at h
            cases hi : initiate_parsing f l st.language (getPS (setPS st.states k bs) f) with
            | none => simp only [hi] at h; simp at h
            | some q =>
              obtain ⟨rem, bs'⟩ := q
              simp only [hi] at h
              rw [Option.some_inj] at h
              subst h; rfl
          · rw [if_neg hcp] at h
            rw [Option.some_inj] at h
            subst h; rfl

theorem starterPhase_freeze (st : ConvState) (l : Line) (st' : ConvState)
    (hP : st.mostRecentSection = some "Parameters".data)
    (h : starterPhase st l = some st') :
    st'.mostRecentSection = some "Parameters".data := by
  unfold starterPhase at h
  cases hfs : findStarter l with
  | none =>
    simp only [hfs] at h
    cases hat : argTypeMatch (lstrip l) with
    | some p =>
      obtain ⟨arg, ty⟩ := p
      simp only [hat] at h
      rw [Option.some_inj] at h
      subst h; exact hP
    | none =>
      simp only [hat, if_pos hP] at h
      cases hkw : kwargsArgsMatch (lstrip l) with
      | some other =>
        simp only [hkw] at h
        rw [Option.some_inj] at h
        subst h; exact hP
      | none =>
        simp only [hkw] at h
        cases hnp : numpyArgsMatch (lstrip l) with
        | some q =>
          obtain ⟨a1, a2, ty⟩ := q
          simp only [hnp] at h
          rw [Option.some_inj] at h
          subst h; exact hP
        | none =>
          simp only [hnp] at h
          rw [Option.some_inj] at h
          subst h; exact hP
  | some k =>
    simp only [hfs] at h
    cases hi : initiate_parsing k l st.language (getPS st.states k) with
    | none => simp only [hi] at h; simp at h
    | some q =>
      obtain ⟨rem, bs⟩ := q
      simp only [hi] at h
      have hP1 : st.mostRecentSection = some "Parameters".data := hP
      cases hat : argTypeMatch (lstrip l) with
      | some p =>
        obtain ⟨arg, ty⟩ := p
        simp only [hat] at h
        rw [Option.some_inj] at h
        subst h; exact hP
      | none =>
        simp only [hat, if_pos hP1] at h
        cases hkw : kwargsArgsMatch (lstrip l) with
        | some other =>
          simp only [hkw] at h
          rw [Option.some_inj] at h
          subst h; exact hP
        | none =>
          simp only [hkw] at h
          cases hnp : numpyArgsMatch (lstrip l) with
          | some q2 =>
            obtain ⟨a1, a2, ty⟩ := q2
            simp only [hnp] at h
            rw [Option.some_inj] at h
            subst h; exact hP
          | none =>
            simp only [hnp] at h
            rw [Option.some_inj] at h
            subst h; exact hP

theorem processLine_freezeParams (st : ConvState) (l : Line) (st' : ConvState)
    (hP : st.mostRecentSection = some "Parameters".data)
    (h : processLine st l = some st') :
    st'.mostRecentSection = some "Parameters".data := by
  unfold processLine at h
  by_cases hsig : is_signature l = true
  · rw [if_pos hsig] at h
    rw [Option.some_inj] at h
    subst h; exact hP
  · rw [if_neg hsig] at h
    cases hap : activePhase st l with
    | none => rw [hap] at h; simp at h
    | some st1 =>
      rw [hap] at h
      have h1 := activePhase_mostRecent st l st1 hap
      cases hA : st1.activeParser with
      | some k =>
        simp only [hA] at h
        rw [Option.some_inj] at h
        subst h
        rw [h1]; exact hP
      | none =>
        simp only [hA] at h
        exact starterPhase_freeze st1 l st' (h1.trans hP) h

theorem starterPhase_title_update (st : ConvState) (l : Line)
    (h3 : findStarter l = none)
    (h4 : argTypeMatch (lstrip l) = none)
    (h5 : st.mostRecentSection ≠ some "Parameters".data)
    (h6 : rstrip (lstrip l) ∈ RST_SECTION_NAMES) :
    ∃ st', starterPhase st l = some st'
      ∧ st'.mostRecentSection = some (rstrip (lstrip l)) := by
  unfold starterPhase
  simp only [h3, h4]
  rw [if_neg h5]
  rw [if_pos (decide_eq_true h6)]
  exact ⟨_, rfl, rfl⟩

/-- Claim C4 counterexample: after scanning "Parameters" the context is
'Parameters'; a later line "Returns" — a known section title scanned outside
any block — does not supersede it, contrary to the claim: the final context
is still 'Parameters'. -/
theorem claim_C4_counterexample :
    (runLines "Parameters\nReturns".data).map ConvState.mostRecentSection
        = some (some "Parameters".data)
      ∧ "Parameters".data ≠ "Returns".data
      ∧ rstrip (lstrip "Returns".data) ∈ RST_SECTION_NAMES :=
  ⟨by decide, by decide, by decide⟩

/-- Claim C4 (amended): a line that trims to a known section title, scanned
outside any block with no starter firing and no list-item match, updates the
most-recent-section context to that title provided the current context is
not 'Parameters'; once the context is 'Parameters' it is retained unchanged
for the remainder of the scan (the superseding branch is unreachable). -/
theorem claim_C4_amended :
    (∀ (st : ConvState) (l : Line),
        st.activeParser = none → is_signature l = false → findStarter l = none →
        argTypeMatch (lstrip l) = none → st.mostRecentSection ≠ some "Parameters".data →
        rstrip (lstrip l) ∈ RST_SECTION_NAMES →
        ∃ st', processLine st l = some st'
          ∧ st'.mostRecentSection = some (rstrip (lstrip l)))
      ∧ (∀ (st : ConvState) (l : Line) (st' : ConvState),
          st.mostRecentSection = some "Parameters".data → processLine st l = some st' →
          st'.mostRecentSection = some "Parameters".data) := by
  constructor
  · intro st l h1 h2 h3 h4 h5 h6
    unfold processLine
    rw [if_neg (by simp [h2])]
    have hap : activePhase st l = some st := by simp [activePhase, h1]
    rw [hap]
    simp only [h1]
    exact starterPhase_title_update st l h3 h4 h5 h6
  · intro st l st' hP h
    exact processLine_freezeParams st l st' hP h

/-- Witness for the amended claim C4: a concrete title line updates an empty
context, and a concrete line leaves a 'Parameters' context unchanged. -/
theorem claim_C4_amended_witness :
    (∃ st', processLine initConvState "Returns".data = some st'
        ∧ st'.mostRecentSection = some (rstrip (lstrip "Returns".data)))
      ∧ (processLine { initConvState with mostRecentSection := some "Parameters".data }
            "Returns".data).map ConvState.mostRecentSection
          = some (some "Parameters".data) := by
  constructor
  · exact claim_C4_amended.1 initConvState "Returns".data rfl (by decide) (by decide)
      (by decide) (by decide) (by decide)
  · cases hp : processLine { initConvState with mostRecentSection := some "Parameters".data }
        "Returns".data with
    | none => exact absurd hp (by decide)
    | some st' =>
      simp only [Option.map_some']
      exact congrArg some (claim_C4_amended.2 _ "Returns".data st' rfl hp)

/-! ## The no-recognized-markup run (claim C8) -/

theorem starterPhase_clean (st : ConvState) (l : Line)
    (hM : st.mostRecentSection = none)
    (hc : lineClean l = true) :
    starterPhase st l = some { st with linesBuffer := st.linesBuffer ++ [l] } := by
  simp only [lineClean, Bool.and_eq_true, Bool.not_eq_true', Option.isNone_iff_eq_none]
    at hc
  obtain ⟨⟨⟨⟨hsig, hfs⟩, hat⟩, hmem⟩, hhl⟩ := hc
  unfold starterPhase
  simp only [hfs, hat, hM, hhl]
  rw [if_neg (by simp)]
  rw [if_neg (by simp [hmem])]
  simp [hhl]

theorem processLine_clean (st : ConvState) (l : Line)
    (hA : st.activeParser = none) (hM : st.mostRecentSection = none)
    (hc : lineClean l = true) :
    processLine st l = some { st with linesBuffer := st.linesBuffer ++ [l] } := by
  have hsig : is_signature l = false := by
    simp only [lineClean, Bool.and_eq_true, Bool.not_eq_true'] at hc
    exact hc.1.1.1.1
  unfold processLine
  rw [if_neg (by simp [hsig])]
  have hap : activePhase st l = some st := by simp [activePhase, hA]
  rw [hap]
  simp only [hA]
  rw [starterPhase_clean st l hM hc]
  simp [hA]

theorem runClean : ∀ (ls : List Line) (st : ConvState),
    st.activeParser = none → st.mostRecentSection = none →
    (∀ l ∈ ls, lineClean l = true) →
    ls.foldlM processLine st = some { st with linesBuffer := st.linesBuffer ++ ls } := by
  intro ls
  induction ls with
  | nil =>
    intro st h1 h2 _
    simp
  | cons l rest ih =>
    intro st h1 h2 hall
    rw [List.foldlM_cons]
    rw [processLine_clean st l h1 h2 (hall l (by simp))]
    simp only [Option.bind_eq_bind, Option.some_bind]
    rw [ih { st with linesBuffer := st.linesBuffer ++ [l] } h1 h2
      (fun l' hl' => hall l' (by simp [hl']))]
    simp

/-- Claim C8 counterexample: an input on which no single line matches any
directive or escaping rule, triggers any block parser, matches a list-item
shape, trims to a section title, or matches the signature shape — yet the
conversion changes the text, because the mod directive pattern matches
across the joined lines in the flush step. -/
theorem claim_C8_counterexample :
    (splitLines ":mod:`a\nb`".data).all c8LineClean = true
      ∧ rst_to_markdown ":mod:`a\nb`" = some "`a\nb`"
      ∧ (":mod:`a\nb`" : String) ≠ "`a\nb`" :=
  ⟨by decide, by decide, by decide⟩

/-- Claim C8 (amended): when no directive or escaping pattern matches
anywhere in the whole text (the substitution pass runs over the
newline-joined buffer, so matches may span lines), no newline-preceded
section header occurs in the text, and no line triggers a block parser,
matches a list-item shape, trims to a section title, matches the signature
shape, or carries a highlight directive, the conversion returns the text
unchanged. -/
theorem claim_C8_amended (text : List Char)
    (h1 : DIRECTIVES.all (fun m => !scanSearch m text) = true)
    (h2 : RST_SECTION_NAMES.all
        (fun sec => !containsSub ('\n' :: sec ++ '\n' :: sectionUnderline sec) text) = true)
    (h3 : (splitLines text).all lineClean = true) :
    rstToMarkdownL text = some text := by
  unfold rstToMarkdownL runLines
  rw [runClean (splitLines text) initConvState rfl rfl
    (fun l hl => List.all_eq_true.mp h3 l hl)]
  simp only [Option.bind_eq_bind, Option.some_bind]
  unfold finalizeConv flush_buffer
  simp only [initConvState, List.nil_append, joinLines_splitLines,
    applyDirectives_id text h1, applySections_id text h2]
  rfl

/-- Witness for the amended claim C8, on a concrete markup-free text. -/
theorem claim_C8_amended_witness :
    rstToMarkdownL "hello world\ngoodbye".data = some "hello world\ngoodbye".data :=
  claim_C8_amended "hello world\ngoodbye".data (by decide) (by decide) (by decide)

/-! ## Totality of the parser operations under the driver invariant -/

theorem getPS_setPS (ps : ParserStates) (k : ParserKind) (bs : BlockState) :
    getPS (setPS ps k bs) k = bs := by
  cases k <;> rfl

theorem consumeBase_total (l : Line) (bs : BlockState) (h1 : bs.blockStarted = true) :
    consumeBase l bs = some { bs with buffer := bs.buffer ++ [l] } := by
  simp [consumeBase, h1]

theorem consumeP_total (k : ParserKind) (l : Line) (bs : BlockState)
    (h1 : bs.blockStarted = true) (h2 : bs.buffer ≠ []) :
    ∃ bs', consumeP k l bs = some bs' ∧ bs'.blockStarted = true ∧ bs'.buffer ≠ [] := by
  cases k with
  | prompt => exact ⟨_, consumeBase_total _ bs h1, h1, by simp⟩
  | output => exact ⟨_, consumeBase_total _ bs h1, h1, by simp⟩
  | note | math | explicitCode | doubleColon =>
    show ∃ bs', consumeIndented l bs = some bs' ∧ _
    unfold consumeIndented consumeIndentedCore
    by_cases hb : bs.isBlockBeginning = true
    · rw [if_pos hb]
      by_cases hbl : (strip l).isEmpty = true
      · rw [if_pos hbl]
        exact ⟨_, rfl, h1, h2⟩
      · rw [if_neg hbl]
        refine ⟨_, consumeBase_total _ _ h1, h1, by simp⟩
    · rw [if_neg hb]
      refine ⟨_, consumeBase_total _ _ h1, h1, by simp⟩

theorem finishConsumption_total (k : ParserKind) (final : Bool) (bs : BlockState)
    (h2 : bs.buffer ≠ []) :
    ∃ frag bs', finish_consumption k final bs = some (frag, bs')
      ∧ bs'.buffer = [] ∧ bs'.blockStarted = false := by
  have hsome : bs.buffer.getLast?.isSome := List.getLast?_isSome.mpr h2
  obtain ⟨last, hlast⟩ := Option.isSome_iff_exists.mp hsome
  cases k <;>
    · unfold finish_consumption finishBase
      simp only [hlast]
      exact ⟨_, _, rfl, rfl, rfl⟩

theorem initiate_total (k : ParserKind) (l : Line) (lang : List Char) (bs : BlockState)
    (h : can_parse k l = true) :
    ∃ rem bs', initiate_parsing k l lang bs = some (rem, bs')
      ∧ bs'.blockStarted = true ∧ bs'.buffer ≠ [] := by
  cases k with
  | prompt =>
    simp only [initiate_parsing, consumeP]
    rw [consumeBase_total (stripPrompt l) (startBlock .prompt "python".data bs) rfl]
    exact ⟨_, _, rfl, rfl, by simp⟩
  | output =>
    simp only [initiate_parsing, consumeP]
    rw [consumeBase_total l (startBlock .output [] bs) rfl]
    exact ⟨_, _, rfl, rfl, by simp⟩
  | note => exact ⟨_, _, rfl, rfl, by simp [startBlockIndented, startBlock]⟩
  | math => exact ⟨_, _, rfl, rfl, by simp [startBlockIndented, startBlock]⟩
  | doubleColon => exact ⟨_, _, rfl, rfl, by simp [startBlockIndented, startBlock]⟩
  | explicitCode =>
    cases hA : litPre ".. code-block::".data l with
    | some rest =>
      unfold initiate_parsing
      simp only [hA]
      exact ⟨_, _, rfl, rfl, by simp [startBlockIndented, startBlock]⟩
    | none =>
      have hB : (litPre ".. productionlist::".data l).isSome = true := by
        have hcp := h
        simp only [can_parse, hA, Bool.or_eq_true, Option.isSome_none] at hcp
        simpa using hcp
      obtain ⟨rest, hB'⟩ := Option.isSome_iff_exists.mp hB
      unfold initiate_parsing
      simp only [hA, hB']
      exact ⟨_, _, rfl, rfl, by simp [startBlockIndented, startBlock]⟩

theorem convInv_init : ConvInv initConvState := by
  refine ⟨?_, ?_, ?_⟩
  · intro k hk; simp [initConvState] at hk
  · intro _; rfl
  · intro k hk; simp [initConvState] at hk

theorem starterPhase_inv (st : ConvState) (l : Line)
    (hA : st.activeParser = none) (hT : balancedTrace st.events = true) :
    ∃ st', starterPhase st l = some st' ∧ ConvInv st' := by
  unfold starterPhase
  cases hfs : findStarter l with
  | none =>
    simp only [hfs]
    refine ⟨_, rfl, ?_, ?_, ?_⟩
    · intro k hk
      have hk' : st.activeParser = some k := hk
      rw [hA] at hk'
      exact absurd hk' (by simp)
    · intro _; exact hT
    · intro k hk
      have hk' : st.activeParser = some k := hk
      rw [hA] at hk'
      exact absurd hk' (by simp)
  | some k =>
    have hcp : can_parse k l = true := by
      have hfs' : BLOCK_PARSERS.find? (fun k => can_parse k l) = some k := hfs
      have hp := List.find?_some hfs'
      exact hp
    obtain ⟨rem, bs, hi, hbs1, hbs2⟩ := initiate_total k l st.language (getPS st.states k) hcp
    simp only [hfs, hi]
    refine ⟨_, rfl, ?_, ?_, ?_⟩
    · intro k' hk'
      have : k = k' := by simpa using hk'
      subst this
      rw [getPS_setPS]
      exact ⟨hbs1, hbs2⟩
    · intro hnone; simp at hnone
    · intro k' hk'
      have : k = k' := by simpa using hk'
      subst this
      exact ⟨st.events, rfl, hT⟩

theorem activePhase_inv (st : ConvState) (l : Line) (hI : ConvInv st) :
    ∃ st', activePhase st l = some st' ∧ ConvInv st' := by
  unfold activePhase
  cases hA : st.activeParser with
  | none => exact ⟨st, by simp, hI⟩
  | some k =>
    obtain ⟨hst, hbuf⟩ := hI.1 k hA
    obtain ⟨pre, hev, hpre⟩ := hI.2.2 k hA
    by_cases hcc : can_consume k (getPS st.states k) l = true
    · obtain ⟨bs', hc, h1', h2'⟩ := consumeP_total k l _ hst hbuf
      simp only [if_pos hcc, hc, Option.map_some']
      refine ⟨_, rfl, ?_, ?_, ?_⟩
      · intro k' hk'
        have : k = k' := by simpa using hk'
        subst this
        rw [getPS_setPS]
        exact ⟨h1', h2'⟩
      · intro hnone; simp [hA] at hnone
      · intro k' hk'
        have : k = k' := by simpa using hk'
        subst this
        exact ⟨pre, hev, hpre⟩
    · obtain ⟨frag, bs', hf, hb0, hs0⟩ := finishConsumption_total k false _ hbuf
      simp only [if_neg hcc, hf]
      cases hfo : follower k with
      | none =>
        simp only [hfo]
        refine ⟨_, rfl, ?_, ?_, ?_⟩
        · intro k' hk'; simp at hk'
        · intro _
          simp only [hev, balancedTrace]
          simp [hpre]
        · intro k' hk'; simp at hk'
      | some f =>
        simp only [hfo]
        by_cases hcp : can_parse f l = true
        · obtain ⟨rem, bs'', hi, hi1, hi2⟩ :=
            initiate_total f l st.language (getPS (setPS st.states k bs') f) hcp
          simp only [if_pos hcp, hi]
          refine ⟨_, rfl, ?_, ?_, ?_⟩
          · intro k' hk'
            have : f = k' := by simpa using hk'
            subst this
            rw [getPS_setPS]
            exact ⟨hi1, hi2⟩
          · intro hnone; simp at hnone
          · intro k' hk'
            have : f = k' := by simpa using hk'
            subst this
            refine ⟨TraceEv.finish k :: st.events, rfl, ?_⟩
            simp only [hev, balancedTrace]
            simp [hpre]
        · simp only [if_neg hcp]
          refine ⟨_, rfl, ?_, ?_, ?_⟩
          · intro k' hk'; simp at hk'
          · intro _
            simp only [hev, balancedTrace]
            simp [hpre]
          · intro k' hk'; simp at hk'

theorem processLine_inv (st : ConvState) (l : Line) (hI : ConvInv st) :
    ∃ st', processLine st l = some st' ∧ ConvInv st' := by
  unfold processLine
  by_cases hsig : is_signature l = true
  · rw [if_pos hsig]
    exact ⟨_, rfl, hI⟩
  · rw [if_neg hsig]
    obtain ⟨st1, hap, hI1⟩ := activePhase_inv st l hI
    rw [hap]
    cases hA1 : st1.activeParser with
    | some k =>
      simp only [hA1]
      exact ⟨st1, rfl, hI1⟩
    | none =>
      simp only [hA1]
      exact starterPhase_inv st1 l hA1 (hI1.2.1 hA1)

theorem runLines_inv : ∀ (ls : List Line) (st : ConvState), ConvInv st →
    ∃ st', ls.foldlM processLine st = some st' ∧ ConvInv st' := by
  intro ls
  induction ls with
  | nil => intro st h; exact ⟨st, by simp, h⟩
  | cons l rest ih =>
    intro st h
    obtain ⟨st1, h1, hI1⟩ := processLine_inv st l h
    obtain ⟨st2, h2, hI2⟩ := ih st1 hI1
    refine ⟨st2, ?_, hI2⟩
    rw [List.foldlM_cons, h1]
    simpa using h2

theorem finalizeConv_inv (st : ConvState) (hI : ConvInv st) :
    ∃ out st', finalizeConv st = some (out, st') ∧ balancedTrace st'.events = true := by
  unfold finalizeConv
  cases hA : st.activeParser with
  | none =>
    simp only [hA]
    exact ⟨_, _, rfl, hI.2.1 hA⟩
  | some k =>
    obtain ⟨_, hbuf⟩ := hI.1 k hA
    obtain ⟨pre, hev, hpre⟩ := hI.2.2 k hA
    obtain ⟨frag, bs', hf, _, _⟩ := finishConsumption_total k true _ hbuf
    simp only [hA, hf]
    refine ⟨_, _, rfl, ?_⟩
    simp only [hev, balancedTrace]
    simp [hpre]

theorem litPre_append : ∀ (pat b : List Char), litPre pat (pat ++ b) = some b := by
  intro pat
  induction pat with
  | nil => intro b; rfl
  | cons p ps ih => intro b; simp [litPre, ih]

theorem containsSub_of_decomp (pat : List Char) :
    ∀ (a b : List Char), containsSub pat (a ++ (pat ++ b)) = true := by
  intro a
  induction a with
  | nil =>
    intro b
    have hsome : (litPre pat (pat ++ b)).isSome = true := by rw [litPre_append]; rfl
    cases hpb : pat ++ b with
    | nil =>
      have hp : pat = [] := (List.append_eq_nil.mp hpb).1
      simp [containsSub, hp]
    | cons c rest =>
      rw [hpb] at hsome
      simp [containsSub, hsome]
  | cons c a' ih =>
    intro b
    simp only [List.cons_append, containsSub, Bool.or_eq_true]
    exact Or.inr (ih b)

theorem joinLines_concat : ∀ (ys : List Line) (x : Line),
    ∃ a, joinLines (ys ++ [x]) = a ++ x := by
  intro ys
  induction ys with
  | nil => intro x; exact ⟨[], rfl⟩
  | cons y ys ih =>
    intro x
    obtain ⟨a, ha⟩ := ih x
    cases hys : ys ++ [x] with
    | nil => simp at hys
    | cons z zs =>
      refine ⟨y ++ '\n' :: a, ?_⟩
      have hstep : joinLines (y :: (z :: zs)) = y ++ '\n' :: joinLines (z :: zs) := rfl
      rw [List.cons_append, hys, hstep, ← hys, ha]
      simp

theorem finishBase_emits_close (k : ParserKind) (final : Bool) (bs : BlockState)
    (frag : List Char) (bs' : BlockState)
    (h : finishBase k final bs = some (frag, bs')) :
    containsSub (enclosure k ++ ['\n']) frag = true := by
  unfold finishBase at h
  cases hl : bs.buffer.getLast? with
  | none => rw [hl] at h; simp at h
  | some last =>
    rw [hl] at h
    rw [Option.some_inj] at h
    have hf : frag = (if final then
        joinLines ((if (strip last).isEmpty then bs.buffer.dropLast else bs.buffer)
          ++ [enclosure k ++ ['\n']])
      else joinLines ((if (strip last).isEmpty then bs.buffer.dropLast else bs.buffer)
          ++ [enclosure k ++ ['\n']]) ++ ['\n']) := by
      have := congrArg Prod.fst h
      simp at this
      rw [← this]
      by_cases hfin : final = true <;> simp [hfin]
    obtain ⟨a, ha⟩ := joinLines_concat
      (if (strip last).isEmpty then bs.buffer.dropLast else bs.buffer)
      (enclosure k ++ ['\n'])
    by_cases hfin : final = true
    · rw [hf, if_pos hfin, ha]
      have := containsSub_of_decomp (enclosure k ++ ['\n']) a []
      simpa using this
    · rw [hf, if_neg hfin, ha]
      rw [List.append_assoc]
      exact containsSub_of_decomp (enclosure k ++ ['\n']) a ['\n']

theorem finish_emits_close (k : ParserKind) (final : Bool) (bs : BlockState)
    (frag : List Char) (bs' : BlockState)
    (h : finish_consumption k final bs = some (frag, bs')) :
    containsSub (enclosure k ++ ['\n']) frag = true := by
  cases k <;>
    · simp only [finish_consumption] at h
      exact finishBase_emits_close _ _ _ _ _ h

theorem initiate_appends_open (k : ParserKind) (l : Line) (lang : List Char)
    (bs : BlockState) (rem : List Char) (bs' : BlockState)
    (h : initiate_parsing k l lang bs = some (rem, bs')) :
    ∃ language rest, bs'.buffer = bs.buffer ++ (enclosure k ++ language) :: rest := by
  cases k with
  | prompt =>
    simp only [initiate_parsing, consumeP] at h
    rw [consumeBase_total (stripPrompt l) (startBlock .prompt "python".data bs) rfl] at h
    simp only [Option.map_some', Option.some_inj] at h
    have hb := congrArg (fun p => p.2.buffer) h
    simp only at hb
    refine ⟨"python".data, [stripPrompt l], ?_⟩
    rw [← hb]
    simp [startBlock]
  | output =>
    simp only [initiate_parsing, consumeP] at h
    rw [consumeBase_total l (startBlock .output [] bs) rfl] at h
    simp only [Option.map_some', Option.some_inj] at h
    have hb := congrArg (fun p => p.2.buffer) h
    simp only at hb
    refine ⟨[], [l], ?_⟩
    rw [← hb]
    simp [startBlock]
  | math =>
    simp only [initiate_parsing, Option.some_inj] at h
    have hb := congrArg (fun p => p.2.buffer) h
    simp only at hb
    exact ⟨[], [], by rw [← hb]; simp [startBlockIndented, startBlock]⟩
  | note =>
    simp only [initiate_parsing, Option.some_inj] at h
    have hb := congrArg (fun p => p.2.buffer) h
    simp only at hb
    refine ⟨(if containsSub "note".data l = true then "\n**Note**\n".data
      else "\n**Warning**\n".data), [], ?_⟩
    rw [← hb]
    simp [startBlockIndented, startBlock]
  | doubleColon =>
    simp only [initiate_parsing, Option.some_inj] at h
    have hb := congrArg (fun p => p.2.buffer) h
    simp only at hb
    refine ⟨(if strip l = ".. autosummary::".data
        then (([] : List Char), ([] : Line)) else (lang, subColonEnd l)).1, [], ?_⟩
    rw [← hb]
    simp [startBlockIndented, startBlock]
  | explicitCode =>
    simp only [initiate_parsing] at h
    cases hA : litPre ".. code-block::".data l with
    | some rest =>
      rw [hA] at h
      simp only [Option.some_inj] at h
      have hb := congrArg (fun p => p.2.buffer) h
      simp only at hb
      refine ⟨explicitLang rest lang, [], ?_⟩
      rw [← hb]
      simp [startBlockIndented, startBlock]
    | none =>
      rw [hA] at h
      cases hB : litPre ".. productionlist::".data l with
      | none => rw [hB] at h; simp at h
      | some rest =>
        rw [hB] at h
        simp only [Option.some_inj] at h
        have hb := congrArg (fun p => p.2.buffer) h
        simp only at hb
        refine ⟨explicitLang rest lang, [], ?_⟩
        rw [← hb]
        simp [startBlockIndented, startBlock]

/-- Claim C1: the conversion is total — for every input string the driver
returns a result and never raises; in particular the 'Block has not started'
failure of `consume` (and every other modelled failure) is unreachable,
because a parser is only fed after `initiate_parsing` made it active and
every `finish_consumption` resets it before it can become active again. -/
theorem claim_C1_total (text : String) : ∃ out, rst_to_markdown text = some out := by
  obtain ⟨st, h1, hI⟩ := runLines_inv (splitLines text.data) initConvState convInv_init
  obtain ⟨out, st', h2, _⟩ := finalizeConv_inv st hI
  refine ⟨⟨out⟩, ?_⟩
  unfold rst_to_markdown rstToMarkdownL runLines
  rw [h1]
  simp [h2]

/-- Claim C2: in every conversion the trace of block lifecycle events is a
balanced sequence — every block parser that is started is eventually
finalized (when a line is rejected, when a follower takes over, or as final
at end of input); moreover every start appends the parser's fence-open line
to its buffer and every finalization emits the matching fence-close, so
every fence-open emitted by a block parser is matched by a fence-close in
the output. -/
theorem claim_C2_balanced :
    (∀ text : List Char,
        ∃ evs, conversionTrace text = some evs ∧ balancedTrace evs = true)
      ∧ (∀ (k : ParserKind) (final : Bool) (bs : BlockState) (frag : List Char)
            (bs' : BlockState),
          finish_consumption k final bs = some (frag, bs') →
          containsSub (enclosure k ++ ['\n']) frag = true)
      ∧ (∀ (k : ParserKind) (l : Line) (lang : List Char) (bs : BlockState)
            (rem : List Char) (bs' : BlockState),
          initiate_parsing k l lang bs = some (rem, bs') →
          ∃ language rest, bs'.buffer = bs.buffer ++ (enclosure k ++ language) :: rest) := by
  refine ⟨?_, finish_emits_close, initiate_appends_open⟩
  intro text
  obtain ⟨st, h1, hI⟩ := runLines_inv (splitLines text) initConvState convInv_init
  obtain ⟨out, st', h2, hbal⟩ := finalizeConv_inv st hI
  refine ⟨st'.events, ?_, hbal⟩
  unfold conversionTrace runLines
  rw [h1]
  simp [h2]

/-- Witness for claim C2: a concrete conversion trace, a concrete
finalization emitting its fence-close, and a concrete initiation appending
its fence-open. -/
theorem claim_C2_balanced_witness :
    (∃ evs, conversionTrace ">>> x = 1\n1".data = some evs ∧ balancedTrace evs = true)
      ∧ containsSub (enclosure .prompt ++ ['\n']) "```python\nx\n```\n\n".data = true
      ∧ (∃ language rest,
          (freshIndentedState "$$".data).buffer
            = ([] : List Line) ++ (enclosure .math ++ language) :: rest) := by
  refine ⟨claim_C2_balanced.1 ">>> x = 1\n1".data, ?_, ?_⟩
  · exact claim_C2_balanced.2.1 .prompt false
      ⟨["```python".data, "x".data], true, false, none⟩ "```python\nx\n```\n\n".data
      ⟨[], false, false, none⟩ (by decide)
  · have h := claim_C2_balanced.2.2 .math ".. math::".data "python".data initBlockState
      [] (freshIndentedState "$$".data) (by decide)
    simpa [initBlockState] using h

end RstToMd
